import Mathlib

/-!
Verification development for the `jsonLinks` module of
`vscode-json-languageservice`: a shallow embedding of the link-discovery
pass (`findLinks`, `findLinks2`, `findExternalReferences`) and of the JSON
Pointer resolver (`parseJSONPointer`, `findNode`, `findTargetNode`,
`unescape`), together with theorems checking the module's specification.

JavaScript strings are modelled as Lean `String`s; `string.split(sep)` and
the global two-character `replace` calls are modelled by explicit
left-to-right recursions on `List Char` (`splitOnChar`, `replacePair`)
whose semantics match the JavaScript operations on the inputs involved.
Machine integers do not occur: all offsets and indices are `Nat`.
-/

namespace JsonLinks

/-- Data of a string AST node: `offset`, `length` and the decoded string
`value`.  Property keys are always string nodes. -/
structure StringNodeData where
  offset : Nat
  length : Nat
  value : String
  deriving Repr, DecidableEq

mutual

/-- Tagged variant of JSON AST nodes, mirroring `ASTNode` of
`jsonLanguageTypes`: every node carries `offset` and `length`; objects own
an ordered list of property nodes, arrays an ordered list of item nodes,
and a property owns a string key node and an optional value node. -/
inductive ASTNode where
  | strN (offset length : Nat) (value : String) : ASTNode
  | numN (offset length : Nat) : ASTNode
  | boolN (offset length : Nat) (value : Bool) : ASTNode
  | nullN (offset length : Nat) : ASTNode
  | objectN (offset length : Nat) (properties : List PropertyNode) : ASTNode
  | arrayN (offset length : Nat) (items : List ASTNode) : ASTNode
  | propN (p : PropertyNode) : ASTNode

/-- A property node: `offset`, `length`, its key node (always a string
node) and its optional value node. -/
inductive PropertyNode where
  | mk (offset length : Nat) (keyNode : StringNodeData)
      (valueNode : Option ASTNode) : PropertyNode

end

/-- Projection: a property node's key node. -/
def PropertyNode.keyNode : PropertyNode → StringNodeData
  | .mk _ _ k _ => k

/-- Projection: a property node's optional value node. -/
def PropertyNode.valueNode : PropertyNode → Option ASTNode
  | .mk _ _ _ v => v

/-- Projection: a property node's offset. -/
def PropertyNode.offset : PropertyNode → Nat
  | .mk o _ _ _ => o

/-- Projection: a property node's length. -/
def PropertyNode.length : PropertyNode → Nat
  | .mk _ l _ _ => l

/-- Start offset of a node (the `offset` field common to all variants). -/
def ASTNode.offset : ASTNode → Nat
  | .strN o _ _ => o
  | .numN o _ => o
  | .boolN o _ _ => o
  | .nullN o _ => o
  | .objectN o _ _ => o
  | .arrayN o _ _ => o
  | .propN p => p.offset

/-- Length of a node (the `length` field common to all variants). -/
def ASTNode.length : ASTNode → Nat
  | .strN _ l _ => l
  | .numN _ l => l
  | .boolN _ l _ => l
  | .nullN _ l => l
  | .objectN _ l _ => l
  | .arrayN _ l _ => l
  | .propN p => p.length

/-- A parsed JSON document: its (possibly absent) root node, mirroring
`JSONDocument.root : ASTNode | undefined`. -/
structure JSONDocument where
  root : Option ASTNode

/-- A zero-based line/character position. -/
structure Position where
  line : Nat
  character : Nat
  deriving Repr, DecidableEq

/-- A text range: start and end positions. -/
structure Range where
  start : Position
  stop : Position
  deriving Repr, DecidableEq

/-- The text document collaborator: a stable URI and the offset-to-position
translation `positionAt`, which this module treats as opaque. -/
structure TextDocument where
  uri : String
  positionAt : Nat → Position

/-- A document link: an optional target locator string and a source range. -/
structure DocumentLink where
  target : Option String
  range : Range
  deriving Repr, DecidableEq

/-- An external reference entry of pre-supplied documents mode: the source
node in the current document, plus the external document's text and tree. -/
structure JsonExternalReference where
  sourceNode : ASTNode
  textDocument : TextDocument
  jsonDocument : JSONDocument

/-- The reference-resolution context collaborator: `resolveReference` maps
a path and a base URI to an absolute URI, or to nothing when unresolvable. -/
structure DocumentContext where
  resolveReference : String → String → Option String

/-- A record pairing a `$ref` source node with the URI its file part
resolves to. -/
structure JsonNodeUri where
  sourceNode : ASTNode
  uri : Option String

/-- Left-to-right split of a character list at every occurrence of the
separator `c`, modelling JavaScript `string.split(sep)` for a one-character
separator: the result is never empty, and splitting the empty string gives
one empty piece. -/
def splitOnChar (c : Char) : List Char → List (List Char)
  | [] => [[]]
  | x :: xs =>
    if x = c then
      [] :: splitOnChar c xs
    else
      match splitOnChar c xs with
      | h :: t => (x :: h) :: t
      | [] => [[x]]

/-- Left-to-right, non-overlapping replacement of the two-character pattern
`p₁ p₂` by the single character `r`, modelling a global JavaScript
`replace` of a two-character literal pattern. -/
def replacePair (p₁ p₂ r : Char) : List Char → List Char
  | [] => []
  | [a] => [a]
  | a :: b :: rest =>
    if a = p₁ ∧ b = p₂ then
      r :: replacePair p₁ p₂ r rest
    else
      a :: replacePair p₁ p₂ r (b :: rest)

/-- Token unescaping of `jsonLinks`: replace every `~1` by `/`, then every
`~0` by `~`. -/
def unescape (str : String) : String :=
  String.mk (replacePair '~' '0' '~' (replacePair '~' '1' '/' str.data))

/-- Test of the regular expression `(0|[1-9][0-9]*)` anchored at both
ends: either the token is exactly the digit `0` (the first alternative:
after a leading `0` nothing more may follow), or it starts with a digit in
`1`–`9` followed by digits in `0`–`9` only. -/
def isCanonicalIndex (token : String) : Bool :=
  match token.data with
  | [] => false
  | c :: cs =>
    if c = '0' then
      cs = []
    else
      ('1' ≤ c && c ≤ '9') && cs.all (fun d => '0' ≤ d && d ≤ '9')

/-- Decimal value of a digit string, modelling `Number.parseInt` on tokens
that passed `isCanonicalIndex`. -/
def natOfToken (token : String) : Nat :=
  token.data.foldl (fun acc c => 10 * acc + (c.toNat - '0'.toNat)) 0

/-- Pointer parsing: `#` denotes the empty token list (the root); any other
string must start with `#/` and its remainder is split on `/` with each
token unescaped; everything else fails. -/
def parseJSONPointer (path : String) : Option (List String) :=
  if path = "#" then
    some []
  else
    match path.data with
    | '#' :: '/' :: rest =>
      some ((splitOnChar '/' rest).map (fun tok => unescape (String.mk tok)))
    | _ => none

/-- Token walk of the pointer resolver: with no node the walk fails; with
no tokens left the current node is the result; otherwise the head token is
consumed and matched against an object's property keys or, when it passes
the canonical-index test, against an array's item positions; any other node
kind fails. -/
def findNode : List String → Option ASTNode → Option ASTNode
  | _, none => none
  | [], some node => some node
  | token :: pointer, some node =>
    match node with
    | .objectN _ _ properties =>
      match properties.find? (fun propertyNode => propertyNode.keyNode.value = token) with
      | some propertyNode => findNode pointer propertyNode.valueNode
      | none => none
    | .arrayN _ _ items =>
      if isCanonicalIndex token then
        match items.get? (natOfToken token) with
        | some arrayItem => findNode pointer (some arrayItem)
        | none => none
      else
        none
    | _ => none

/-- Pointer resolution against a document: parse the pointer and walk the
tokens from the document's root. -/
def findTargetNode (doc : JSONDocument) (path : String) : Option ASTNode :=
  match parseJSONPointer path with
  | none => none
  | some tokens => findNode tokens doc.root

/-- Range of a link: from `offset + 1` to `offset + length - 1` of the
given node, excluding the delimiting quote characters. -/
def createRange (document : TextDocument) (node : ASTNode) : Range :=
  { start := document.positionAt (node.offset + 1)
    stop := document.positionAt (node.offset + node.length - 1) }

mutual

/-- Modelled from the spec: `JSONDocument.visit` (of the parser module,
which is outside the extracted source) performs a pre-order, depth-first
traversal that visits every node exactly once, visiting children after
their parent; the visitor of the link finders always continues.  This
function lists the nodes of a subtree in that visit order; a property's
children are its key node followed by its value node, if any. -/
def preorderNodes : ASTNode → List ASTNode
  | .strN o l v => [.strN o l v]
  | .numN o l => [.numN o l]
  | .boolN o l v => [.boolN o l v]
  | .nullN o l => [.nullN o l]
  | .objectN o l properties => .objectN o l properties :: preorderProps properties
  | .arrayN o l items => .arrayN o l items :: preorderItems items
  | .propN p => .propN p :: preorderChildren p

/-- Visit-order listing of a property node's children: the key node, then
the value node's subtree when present. -/
def preorderChildren : PropertyNode → List ASTNode
  | .mk _ _ k v =>
    .strN k.offset k.length k.value ::
      (match v with
       | some valueNode => preorderNodes valueNode
       | none => [])

/-- Visit-order listing of an object's property subtrees. -/
def preorderProps : List PropertyNode → List ASTNode
  | [] => []
  | p :: ps => (.propN p :: preorderChildren p) ++ preorderProps ps

/-- Visit-order listing of an array's item subtrees. -/
def preorderItems : List ASTNode → List ASTNode
  | [] => []
  | n :: ns => preorderNodes n ++ preorderItems ns

end

/-- Visit order of a whole document: the root's subtree in pre-order, or
nothing when the document has no root. -/
def documentNodes (doc : JSONDocument) : List ASTNode :=
  match doc.root with
  | some root => preorderNodes root
  | none => []

/-- Body of the visitor of `findLinks` (and of the local pass of
`findLinks2`) at one visited node: when the node is a property whose key is
the literal `$ref` and whose value is a string node, resolve that string
against the same document; on success the produced link's range is the
value node's interior in the current document and its target encodes the
document's URI with the resolved node's one-based line and column. -/
def refLinkAt (document : TextDocument) (doc : JSONDocument) : ASTNode → Option DocumentLink
  | .propN p =>
    if p.keyNode.value = "$ref" then
      match p.valueNode with
      | some (.strN off len value) =>
        match findTargetNode doc value with
        | some targetNode =>
          let targetPos := document.positionAt targetNode.offset
          some { target := some (document.uri ++ "#" ++ toString (targetPos.line + 1) ++
                   "," ++ toString (targetPos.character + 1))
                 range := createRange document (.strN off len value) }
        | none => none
      | _ => none
    else
      none
  | _ => none

/-- Push step of the mutable result arrays of the passes: append the
per-element body's output, when there is one, to the collected list. -/
def pushOpt {α β : Type} (f : α → Option β) (ls : List β) (x : α) : List β :=
  match f x with
  | some y => ls ++ [y]
  | none => ls

/-- Local link finder: visit the document, appending one link for every
`$ref` property whose string value resolves against the same tree.  The
fold mirrors the mutable `links` array pushed to during the visit. -/
def findLinks (document : TextDocument) (doc : JSONDocument) : List DocumentLink :=
  (documentNodes doc).foldl (pushOpt (refLinkAt document doc)) []

/-- Fragment string built by `findLinks2` for an external reference value:
the character `#` followed by the second piece of the value split at `#`;
when the value has no `#` that piece is JavaScript `undefined` and the
template string renders it as the literal text `undefined`. -/
def fragmentPath (value : String) : String :=
  "#" ++
    (match (splitOnChar '#' value.data).get? 1 with
     | some piece => String.mk piece
     | none => "undefined")

/-- Body of the external-reference loop of `findLinks2` at one entry: when
the source node is a `$ref` property with a string value, the fragment path
is resolved against the external document's tree; on success the produced
link's range is computed in the current document while its target encodes
the external document's URI and resolved position. -/
def externalLink (document : TextDocument) (ref : JsonExternalReference) : Option DocumentLink :=
  match ref.sourceNode with
  | .propN p =>
    if p.keyNode.value = "$ref" then
      match p.valueNode with
      | some (.strN off len value) =>
        match findTargetNode ref.jsonDocument (fragmentPath value) with
        | some targetNode =>
          let targetPos := ref.textDocument.positionAt targetNode.offset
          some { target := some (ref.textDocument.uri ++ "#" ++ toString (targetPos.line + 1) ++
                   "," ++ toString (targetPos.character + 1))
                 range := createRange document (.strN off len value) }
        | none => none
      | _ => none
    else
      none
  | _ => none

/-- Cross-document link finder in pre-supplied documents mode: first the
local pass of `findLinks`, then a loop over the supplied external
references, each appending to the same `links` array. -/
def findLinks2 (document : TextDocument) (doc : JSONDocument)
    (externalReferences : List JsonExternalReference) : List DocumentLink :=
  let links := (documentNodes doc).foldl (pushOpt (refLinkAt document doc)) []
  externalReferences.foldl (pushOpt (externalLink document)) links

/-- File part of a reference value: the piece of the value before the
first `#`, the whole value when it has no `#` (the first piece of the
JavaScript split at `#`). -/
def filePart (value : String) : String :=
  String.mk ((splitOnChar '#' value.data).headD [])

/-- Body of the visitor of `findExternalReferences` at one visited node:
when the node is a `$ref` property with a string value whose file part (the
piece before the first `#`) is non-empty, a record is produced pairing the
node with whatever `resolveReference` returns for that file part against
the document's URI. -/
def externalRefAt (document : TextDocument) (documentContext : DocumentContext) :
    ASTNode → Option JsonNodeUri
  | .propN p =>
    if p.keyNode.value = "$ref" then
      match p.valueNode with
      | some (.strN _off _len value) =>
        let externalFile := filePart value
        if externalFile = "" then
          none
        else
          some { sourceNode := .propN p
                 uri := documentContext.resolveReference externalFile document.uri }
      | _ => none
    else
      none
  | _ => none

/-- Reference extractor: visit the document, appending one record per
`$ref` property whose string value has a non-empty file part. -/
def findExternalReferences (document : TextDocument) (doc : JSONDocument)
    (documentContext : DocumentContext) : List JsonNodeUri :=
  (documentNodes doc).foldl (pushOpt (externalRefAt document documentContext)) []

/-! Explicit-state model of the token array.  In the source,
`parseJSONPointer` allocates a fresh array of tokens on every call and
`findNode` consumes it destructively from the front.  To reason about that
mutation, token arrays live in a store, a call to the resolver allocates a
fresh slot, and the shifting walk returns the array's final contents, which
are written back to that slot. -/

/-- Heap of token arrays: the arrays reachable by any caller, by index. -/
abbrev TokenStore : Type := List (List String)

/-- Length of a token store. -/
def TokenStore.size (store : TokenStore) : Nat := List.length store

/-- Slot read in a token store. -/
def TokenStore.read (store : TokenStore) (i : Nat) : Option (List String) :=
  List.get? store i

/-- Variant of `findNode` that also returns the final contents of the
consumed token array: every step removes the front token, exactly as the
destructive removal in the source does, and the second component is what
the mutated array holds when the walk stops. -/
def findNodeShift : List String → Option ASTNode → Option ASTNode × List String
  | pointer, none => (none, pointer)
  | [], some node => (some node, [])
  | token :: pointer, some node =>
    match node with
    | .objectN _ _ properties =>
      match properties.find? (fun propertyNode => propertyNode.keyNode.value = token) with
      | some propertyNode => findNodeShift pointer propertyNode.valueNode
      | none => (none, pointer)
    | .arrayN _ _ items =>
      if isCanonicalIndex token then
        match items.get? (natOfToken token) with
        | some arrayItem => findNodeShift pointer (some arrayItem)
        | none => (none, pointer)
      else
        (none, pointer)
    | _ => (none, pointer)

/-- Pointer resolution with the token array's mutation made explicit:
parsing allocates a fresh array at the end of the store, the walk consumes
it, and its final contents are written back to the fresh slot; pre-existing
slots are never touched. -/
def findTargetNodeSt (store : TokenStore) (doc : JSONDocument) (path : String) :
    Option ASTNode × TokenStore :=
  match parseJSONPointer path with
  | none => (none, store)
  | some tokens =>
    let extended : TokenStore := store ++ [tokens]
    let fresh := TokenStore.size store
    let res := findNodeShift ((TokenStore.read extended fresh).getD []) doc.root
    (res.1, extended.set fresh res.2)

/-- Modelled from the spec: the external-resource service of on-demand
resolution mode (section 4.3 of the spec), which is not part of the
extracted source.  `fetch` reports, per URI, the error list of
asynchronously loading that resource; an empty list means the load
succeeded. -/
structure ExternalResourceService where
  fetch : String → List String

/-- Modelled from the spec: the absolute URI a reference value's file part
resolves to in on-demand mode, through the caller-supplied
reference-resolution context (an unresolvable path is rendered as the empty
URI). -/
def resolvedUriOf (document : TextDocument) (documentContext : DocumentContext)
    (value : String) : String :=
  (documentContext.resolveReference (filePart value) document.uri).getD ""

/-- Modelled from the spec: the per-node emission of on-demand resolution
mode of the cross-document link finder (section 4.3), which is not part of
the extracted source.  At a `$ref` property with a string value: with an
empty file part the reference is resolved locally exactly as in the local
link finder; otherwise the file part is resolved to a URI and that resource
is fetched — if the fetch reports no errors, a link with the value's
interior range and an intentionally absent target is emitted, and if it
reports errors, nothing is emitted for that property. -/
def onDemandLinkAt (document : TextDocument) (doc : JSONDocument)
    (documentContext : DocumentContext) (service : ExternalResourceService) :
    ASTNode → Option DocumentLink
  | .propN p =>
    if p.keyNode.value = "$ref" then
      match p.valueNode with
      | some (.strN off len value) =>
        if filePart value = "" then
          refLinkAt document doc (.propN p)
        else
          if service.fetch (resolvedUriOf document documentContext value) = [] then
            some { target := none
                   range := createRange document (.strN off len value) }
          else
            none
      | _ => none
    else
      none
  | _ => none

/-- Modelled from the spec: the on-demand mode of the cross-document link
finder (section 4.3), which is not part of the extracted source.  One link
is collected per `$ref` property according to `onDemandLinkAt`; the spec
leaves the output order unspecified, and this model uses document order. -/
def findLinksOnDemand (document : TextDocument) (doc : JSONDocument)
    (documentContext : DocumentContext) (service : ExternalResourceService) :
    List DocumentLink :=
  (documentNodes doc).filterMap (onDemandLinkAt document doc documentContext service)

/-- Canonical decimal form of a non-negative integer, in the words of the
spec: a token of digits only, with no leading zero unless the token is
exactly the digit zero. -/
def canonicalNonNegIntegerSpec (token : String) : Prop :=
  token.data ≠ [] ∧ (∀ c ∈ token.data, c.isDigit = true) ∧
    (token.data.head? = some '0' → token = "0")

/-! Concrete documents and collaborators used to instantiate theorems. -/

/-- Concrete current document text, with a position mapping that puts every
offset on line zero. -/
def tdA : TextDocument := ⟨"file:///a.json", fun off => ⟨0, off⟩⟩

/-- Concrete external document text. -/
def tdB : TextDocument := ⟨"file:///b.json", fun off => ⟨0, off⟩⟩

/-- Concrete `$ref` property whose value `other.json` has no `#`. -/
def propNoHash : PropertyNode := .mk 1 21 ⟨1, 6, "$ref"⟩ (some (.strN 9 12 "other.json"))

/-- Concrete document holding only `propNoHash`. -/
def docNoHash : JSONDocument := ⟨some (.objectN 0 23 [propNoHash])⟩

/-- Concrete external document whose root is an empty object. -/
def docBEmpty : JSONDocument := ⟨some (.objectN 0 2 [])⟩

/-- Concrete external reference pairing `propNoHash` with `docBEmpty`. -/
def refNoHash : JsonExternalReference := ⟨.propN propNoHash, tdB, docBEmpty⟩

/-- Concrete `$ref` property whose value is `other.json#/z`. -/
def propWithHash : PropertyNode := .mk 1 24 ⟨1, 6, "$ref"⟩ (some (.strN 9 15 "other.json#/z"))

/-- Concrete document holding only `propWithHash`. -/
def docWithHash : JSONDocument := ⟨some (.objectN 0 26 [propWithHash])⟩

/-- Concrete external document holding a key `z` with value `1`. -/
def docBZ : JSONDocument := ⟨some (.objectN 0 8 [.mk 1 6 ⟨1, 3, "z"⟩ (some (.numN 6 1))])⟩

/-- Concrete external reference pairing `propWithHash` with `docBZ`. -/
def refWithHash : JsonExternalReference := ⟨.propN propWithHash, tdB, docBZ⟩

/-- Concrete document for the scenario with one resolvable local `$ref`:
an object holding `x` bound to an object with a `$ref` to `#/y`, and `y`
bound to the number `42`. -/
def docXY : JSONDocument :=
  ⟨some (.objectN 0 30 [
    .mk 1 21 ⟨1, 3, "x"⟩ (some (.objectN 6 16 [.mk 7 14 ⟨7, 6, "$ref"⟩ (some (.strN 15 6 "#/y"))])),
    .mk 24 8 ⟨24, 3, "y"⟩ (some (.numN 28 2))])⟩

/-- Concrete document holding one `$ref` to a missing key. -/
def docMissing : JSONDocument :=
  ⟨some (.objectN 0 22 [.mk 1 20 ⟨1, 6, "$ref"⟩ (some (.strN 9 12 "#/missing"))])⟩

/-- Concrete document binding the literal key containing a tilde, with
value `5`. -/
def docTilde : JSONDocument := ⟨some (.objectN 0 12 [.mk 1 10 ⟨1, 5, "a~1"⟩ (some (.numN 10 1))])⟩

/-- Concrete document binding `a` to an object that binds `b` to `7`. -/
def docAB : JSONDocument :=
  ⟨some (.objectN 0 16 [.mk 1 14 ⟨1, 3, "a"⟩
    (some (.objectN 6 9 [.mk 7 7 ⟨7, 3, "b"⟩ (some (.numN 12 1))]))])⟩

/-- Concrete resolution context that can resolve nothing. -/
def ctxNone : DocumentContext := ⟨fun _ _ => none⟩

/-- Concrete resolution context that prefixes a fixed directory. -/
def ctxDir : DocumentContext := ⟨fun path _ => some ("file:///dir/" ++ path)⟩

/-- Concrete resource service whose fetch fails exactly on the resolved
URI of `other.json` under `ctxDir`. -/
def svcFailOther : ExternalResourceService :=
  ⟨fun uri => if uri = "file:///dir/other.json" then ["load failed"] else []⟩

/-- Concrete resource service whose fetch always succeeds. -/
def svcOk : ExternalResourceService := ⟨fun _ => []⟩

/-! Helper lemmas. -/

/-- Folding the append-one-element-on-success body over a list, as the
mutable `push` loops do, collects exactly the `filterMap` of the body. -/
theorem foldl_push_eq_filterMap {α β : Type} (f : α → Option β) (xs : List α) (acc : List β) :
    xs.foldl (pushOpt f) acc = acc ++ xs.filterMap f := by
  induction xs generalizing acc with
  | nil => simp
  | cons x xs ih =>
    cases h : f x with
    | some l => simp [List.foldl_cons, pushOpt, h, ih, List.filterMap_cons]
    | none => simp [List.foldl_cons, pushOpt, h, ih, List.filterMap_cons]

/-- Splitting a list free of the separator yields that one piece. -/
theorem splitOnChar_of_not_mem {c : Char} {l : List Char} (h : c ∉ l) :
    splitOnChar c l = [l] := by
  induction l with
  | nil => rfl
  | cons x xs ih =>
    simp only [List.mem_cons, not_or] at h
    rw [splitOnChar, if_neg (fun e => h.1 e.symm), ih h.2]

/-- Splitting at the first separator occurrence: a separator-free prefix
becomes the first piece. -/
theorem splitOnChar_append {c : Char} (b : List Char) :
    ∀ {a : List Char}, c ∉ a → splitOnChar c (a ++ c :: b) = a :: splitOnChar c b := by
  intro a
  induction a with
  | nil => intro _; simp [splitOnChar]
  | cons x xs ih =>
    intro h
    simp only [List.mem_cons, not_or] at h
    rw [List.cons_append, splitOnChar, if_neg (fun e => h.1 e.symm), ih h.2]

/-- Pair replacement leaves a list untouched when the pattern's first
character never occurs. -/
theorem replacePair_of_not_mem (p₁ p₂ r : Char) :
    ∀ (l : List Char), p₁ ∉ l → replacePair p₁ p₂ r l = l
  | [], _ => rfl
  | [_], _ => rfl
  | a :: b :: rest, h => by
    have ha : ¬(a = p₁ ∧ b = p₂) := by
      rintro ⟨e, _⟩
      exact (by simp [e] at h)
    rw [replacePair, if_neg ha,
      replacePair_of_not_mem p₁ p₂ r (b :: rest)
        (fun hm => h (List.mem_cons_of_mem _ hm))]

/-- Rebuilding a string from its characters gives it back. -/
theorem string_mk_data (s : String) : String.mk s.data = s := rfl

/-- Unescaping is the identity on tokens without a tilde. -/
theorem unescape_of_not_mem {s : String} (h : '~' ∉ s.data) : unescape s = s := by
  rw [unescape, replacePair_of_not_mem _ _ _ _ h, replacePair_of_not_mem _ _ _ _ h,
    string_mk_data]

/-- Parsing a two-token pointer whose tokens are free of `/` and `~`. -/
theorem parseJSONPointer_two {a b : String}
    (ha : '/' ∉ a.data) (ha' : '~' ∉ a.data) (hb : '/' ∉ b.data) (hb' : '~' ∉ b.data) :
    parseJSONPointer ("#/" ++ a ++ "/" ++ b) = some [a, b] := by
  have hdata : ("#/" ++ a ++ "/" ++ b).data = '#' :: '/' :: (a.data ++ '/' :: b.data) := by
    simp [String.data_append]
  have hne : ("#/" ++ a ++ "/" ++ b) ≠ "#" := by
    intro e
    have h2 := congrArg String.data e
    rw [hdata] at h2
    simp at h2
  rw [parseJSONPointer, if_neg hne, hdata]
  simp only [splitOnChar_append (b.data) ha, splitOnChar_of_not_mem hb, List.map]
  simp [string_mk_data, unescape_of_not_mem ha', unescape_of_not_mem hb']

/-- First component of the shifting walk agrees with the pure walk. -/
theorem findNodeShift_fst :
    ∀ (tokens : List String) (node : Option ASTNode),
      (findNodeShift tokens node).1 = findNode tokens node := by
  intro tokens
  induction tokens with
  | nil => intro node; cases node <;> rfl
  | cons t ts ih =>
    intro node
    cases node with
    | none => rfl
    | some n =>
      cases n with
      | objectN o l props =>
        rw [findNodeShift, findNode]
        cases h : props.find? (fun pn => pn.keyNode.value = t) with
        | some p => simp only [h, ih]
        | none => simp only [h]
      | arrayN o l items =>
        rw [findNodeShift, findNode]
        by_cases hc : isCanonicalIndex t
        · simp only [hc, if_true]
          cases h : items.get? (natOfToken t) with
          | some it => simp only [h, ih]
          | none => simp only [h]
        · simp [hc]
      | strN o l v => rfl
      | numN o l => rfl
      | boolN o l v => rfl
      | nullN o l => rfl
      | propN p => rfl

/-- Setting the freshly appended last slot only rewrites that slot. -/
theorem set_append_length {α : Type} (l : List α) (x y : α) :
    (l ++ [x]).set l.length y = l ++ [y] := by
  induction l with
  | nil => rfl
  | cons a as ih => simp [List.set, ih]

/-- Character order reflected to the natural code point. -/
theorem char_le_iff_toNat {a b : Char} :
    a ≤ b ↔ a.val.toBitVec.toNat ≤ b.val.toBitVec.toNat := by
  rw [Char.le_def, UInt32.le_def, BitVec.le_def]

/-- Character equality reflected to the natural code point. -/
theorem char_eq_iff_toNat {a b : Char} :
    a = b ↔ a.val.toBitVec.toNat = b.val.toBitVec.toNat := by
  constructor
  · intro h; rw [h]
  · intro h; exact Char.eq_of_val_eq (UInt32.eq_of_toBitVec_eq (BitVec.eq_of_toNat_eq h))

/-- Digit test reflected to the natural code point. -/
theorem isDigit_iff_toNat (c : Char) :
    c.isDigit = true ↔ (48 ≤ c.val.toBitVec.toNat ∧ c.val.toBitVec.toNat ≤ 57) := by
  have h48 : ((48 : UInt32) ≤ c.val) ↔ 48 ≤ c.val.toBitVec.toNat := by
    rw [UInt32.le_def, BitVec.le_def]; rfl
  have h57 : (c.val ≤ (57 : UInt32)) ↔ c.val.toBitVec.toNat ≤ 57 := by
    rw [UInt32.le_def, BitVec.le_def]; rfl
  simp only [Char.isDigit, Bool.and_eq_true, decide_eq_true_eq, ge_iff_le, h48, h57]

/-- Head test of the second regex alternative: a character is between `1`
and `9` exactly when it is a digit other than `0`. -/
theorem one_le_le_nine_iff (c : Char) :
    (('1' ≤ c && c ≤ '9') = true) ↔ (c.isDigit = true ∧ c ≠ '0') := by
  have h1 : ('1' : Char).val.toBitVec.toNat = 49 := rfl
  have h9 : ('9' : Char).val.toBitVec.toNat = 57 := rfl
  have h0 : ('0' : Char).val.toBitVec.toNat = 48 := rfl
  simp only [Bool.and_eq_true, decide_eq_true_eq, char_le_iff_toNat, isDigit_iff_toNat,
    Ne, char_eq_iff_toNat, h1, h9, h0]
  omega

/-- Tail test of the second regex alternative: the per-character body is
the digit test. -/
theorem zero_le_le_nine_iff (c : Char) :
    (('0' ≤ c && c ≤ '9') = true) ↔ c.isDigit = true := by
  have h9 : ('9' : Char).val.toBitVec.toNat = 57 := rfl
  have h0 : ('0' : Char).val.toBitVec.toNat = 48 := rfl
  simp only [Bool.and_eq_true, decide_eq_true_eq, char_le_iff_toNat, isDigit_iff_toNat, h9, h0]

/-- The regex test of the source accepts exactly the tokens the spec calls
canonical decimal forms of non-negative integers. -/
theorem isCanonicalIndex_iff (token : String) :
    isCanonicalIndex token = true ↔ canonicalNonNegIntegerSpec token := by
  obtain ⟨data⟩ := token
  cases data with
  | nil => simp [isCanonicalIndex, canonicalNonNegIntegerSpec]
  | cons c cs =>
    by_cases hc : c = '0'
    · subst hc
      cases cs with
      | nil =>
        constructor
        · intro _
          refine ⟨by simp, ?_, fun _ => rfl⟩
          intro x hx
          simp at hx
          subst hx
          decide
        · intro _
          decide
      | cons c2 cs2 =>
        constructor
        · intro h
          exfalso
          simp [isCanonicalIndex] at h
        · rintro ⟨-, -, h3⟩
          exfalso
          have h0 : String.mk ('0' :: c2 :: cs2) = "0" := h3 rfl
          have h1 := congrArg String.data h0
          simp at h1
    · simp only [isCanonicalIndex, canonicalNonNegIntegerSpec]
      rw [if_neg hc]
      constructor
      · intro h'
        rw [Bool.and_eq_true] at h'
        obtain ⟨h1, h2⟩ := h'
        obtain ⟨hcd, hcne⟩ := (one_le_le_nine_iff c).mp h1
        refine ⟨by simp, ?_, ?_⟩
        · intro x hx
          rcases List.mem_cons.mp hx with h | h
          · subst h; exact hcd
          · exact (zero_le_le_nine_iff x).mp (List.all_eq_true.mp h2 x h)
        · intro hh
          simp only [List.head?_cons, Option.some.injEq] at hh
          exact absurd hh hc
      · rintro ⟨-, hall, -⟩
        have h1 : ('1' ≤ c && c ≤ '9') = true :=
          (one_le_le_nine_iff c).mpr ⟨hall c (List.mem_cons_self c cs), hc⟩
        have h2 : (cs.all fun d => '0' ≤ d && d ≤ '9') = true := by
          rw [List.all_eq_true]
          intro x hx
          exact (zero_le_le_nine_iff x).mpr (hall x (List.mem_cons_of_mem _ hx))
        rw [h1, h2]
        rfl

/-- Link collection of the local pass is the `filterMap` of its per-node
body over the visit order. -/
theorem findLinks_eq (document : TextDocument) (doc : JSONDocument) :
    findLinks document doc = (documentNodes doc).filterMap (refLinkAt document doc) := by
  rw [findLinks, foldl_push_eq_filterMap]
  rfl

/-- The pre-supplied mode's output is the local links followed by the
external links in caller order. -/
theorem findLinks2_eq (document : TextDocument) (doc : JSONDocument)
    (refs : List JsonExternalReference) :
    findLinks2 document doc refs
      = findLinks document doc ++ refs.filterMap (externalLink document) := by
  rw [findLinks2]
  rw [foldl_push_eq_filterMap]
  rfl

/-- Record collection of the extractor is the `filterMap` of its per-node
body over the visit order. -/
theorem findExternalReferences_eq (document : TextDocument) (doc : JSONDocument)
    (documentContext : DocumentContext) :
    findExternalReferences document doc documentContext
      = (documentNodes doc).filterMap (externalRefAt document documentContext) := by
  rw [findExternalReferences, foldl_push_eq_filterMap]
  rfl

/-- Reading the freshly allocated slot returns the fresh token array. -/
theorem tokenStore_read_append (store : TokenStore) (tokens : List String) :
    TokenStore.read (store ++ [tokens]) (TokenStore.size store) = some tokens := by
  show List.get? (store ++ [tokens]) (List.length store) = some tokens
  rw [List.get?_eq_getElem?]
  exact List.getElem?_concat_length store tokens

/-- The value computed by the explicit-state resolver agrees with the pure
resolver. -/
theorem findTargetNodeSt_fst (store : TokenStore) (doc : JSONDocument) (path : String) :
    (findTargetNodeSt store doc path).1 = findTargetNode doc path := by
  rw [findTargetNodeSt, findTargetNode]
  cases hp : parseJSONPointer path with
  | none => rfl
  | some tokens =>
    dsimp only
    rw [tokenStore_read_append]
    simp only [Option.getD_some]
    exact findNodeShift_fst tokens doc.root

/-! Theorems for the claims. -/

/-- Claim C4: for every tree with a root node, resolving the pointer `#`
returns the root regardless of its type; and every pointer string that is
not `#` and does not start with `#/` (including the empty string and
strings like `/a`) resolves to not-found. -/
theorem findTargetNode_root_or_parse_failure (doc : JSONDocument) :
    (∀ root, doc.root = some root → findTargetNode doc "#" = some root) ∧
    (∀ path : String, path ≠ "#" → (∀ rest, path.data ≠ '#' :: '/' :: rest) →
      findTargetNode doc path = none) := by
  constructor
  · intro root h
    have hp : parseJSONPointer "#" = some [] := rfl
    rw [findTargetNode, hp, h]
    rfl
  · intro path h1 h2
    have hp : parseJSONPointer path = none := by
      rw [parseJSONPointer, if_neg h1]
      split
      · rename_i rest heq
        exact absurd heq (h2 rest)
      · rfl
    rw [findTargetNode, hp]

/-- Claim C4 witness: `#` resolves to a concrete root; `/a` and the empty
string resolve to not-found. -/
theorem findTargetNode_root_or_parse_failure_witness :
    findTargetNode docBEmpty "#" = some (.objectN 0 2 []) ∧
    findTargetNode docBEmpty "/a" = none ∧
    findTargetNode docBEmpty "" = none :=
  ⟨(findTargetNode_root_or_parse_failure docBEmpty).1 (.objectN 0 2 []) rfl,
   (findTargetNode_root_or_parse_failure docBEmpty).2 "/a" (by decide)
     (fun rest h => by simp at h),
   (findTargetNode_root_or_parse_failure docBEmpty).2 "" (by decide)
     (fun rest h => by simp at h)⟩

/-- Claim C5: unescaping replaces every `~1` by `/` and then every `~0` by
`~`; the token `a~01` decodes to the literal key containing a tilde, and
against the document binding that key to `5` the pointer `#/a~01` resolves
to the node of the value `5`. -/
theorem unescape_decodes_tilde :
    unescape "a~01" = "a~1" ∧
    unescape "~1" = "/" ∧ unescape "~0" = "~" ∧
    findTargetNode docTilde "#/a~01" = some (.numN 10 1) :=
  ⟨rfl, rfl, rfl, rfl⟩

/-- Claim C6: the array-token test of `findNode` accepts exactly the
canonical decimal forms of non-negative integers (no leading zero unless
the token is exactly `0`); the token `01` never matches any array, and an
in-form token whose index is out of range makes the whole resolution fail
with not-found. -/
theorem findNode_array_token_canonical (tok : String) :
    (isCanonicalIndex tok = true ↔ canonicalNonNegIntegerSpec tok) ∧
    (∀ (off len : Nat) (items : List ASTNode) (rest : List String),
      findNode ("01" :: rest) (some (.arrayN off len items)) = none) ∧
    (∀ (rest : List String) (off len : Nat) (items : List ASTNode),
      isCanonicalIndex tok = true → List.length items ≤ natOfToken tok →
      findNode (tok :: rest) (some (.arrayN off len items)) = none) := by
  refine ⟨isCanonicalIndex_iff tok, ?_, ?_⟩
  · intro off len items rest
    have hc : isCanonicalIndex "01" = false := rfl
    simp [findNode, hc]
  · intro rest off len items hcanon hrange
    have hget : items[natOfToken tok]? = none := List.getElem?_eq_none hrange
    simp [findNode, hcanon, hget]

/-- Claim C6 witness: `01` matches neither position of a two-item array,
and the in-form token `2` is out of range for it. -/
theorem findNode_array_token_canonical_witness :
    findNode ["01"] (some (.arrayN 0 6 [.numN 1 1, .numN 3 1])) = none ∧
    findNode ["2"] (some (.arrayN 0 6 [.numN 1 1, .numN 3 1])) = none :=
  ⟨(findNode_array_token_canonical "01").2.1 0 6 [.numN 1 1, .numN 3 1] [],
   (findNode_array_token_canonical "2").2.2 [] 0 6 [.numN 1 1, .numN 3 1]
     (by decide) (by decide)⟩

/-- Claim C7: a pointer `#/a/b` whose tokens are plain (no `/`, no `~`)
resolves, against a root object binding `a` to an object binding `b`, to
exactly that property's value node; and resolution is idempotent — in the
explicit-state model, repeated calls with the same pointer string and tree
keep returning the same node, the token consumption of one call never
affecting the next. -/
theorem findTargetNode_two_level_idempotent (doc : JSONDocument) (a b : String)
    (o l o' l' : Nat) (props props' : List PropertyNode) (pa pb : PropertyNode) (v : ASTNode)
    (ha : '/' ∉ a.data) (ha' : '~' ∉ a.data) (hb : '/' ∉ b.data) (hb' : '~' ∉ b.data)
    (hroot : doc.root = some (.objectN o l props))
    (hfa : props.find? (fun pn => pn.keyNode.value = a) = some pa)
    (hva : pa.valueNode = some (.objectN o' l' props'))
    (hfb : props'.find? (fun pn => pn.keyNode.value = b) = some pb)
    (hvb : pb.valueNode = some v) :
    findTargetNode doc ("#/" ++ a ++ "/" ++ b) = some v ∧
    ∀ store : TokenStore,
      (findTargetNodeSt store doc ("#/" ++ a ++ "/" ++ b)).1 = some v ∧
      (findTargetNodeSt (findTargetNodeSt store doc ("#/" ++ a ++ "/" ++ b)).2
          doc ("#/" ++ a ++ "/" ++ b)).1 = some v := by
  have hmain : findTargetNode doc ("#/" ++ a ++ "/" ++ b) = some v := by
    rw [findTargetNode, parseJSONPointer_two ha ha' hb hb', hroot]
    simp only [findNode, hfa, hva, hfb, hvb]
  refine ⟨hmain, fun store => ⟨?_, ?_⟩⟩
  · rw [findTargetNodeSt_fst, hmain]
  · rw [findTargetNodeSt_fst, hmain]

/-- Claim C7 witness: against the document binding `a` to an object
binding `b` to `7`, the pointer `#/a/b` resolves to the node of `7`, also
under repeated explicit-state resolution. -/
theorem findTargetNode_two_level_idempotent_witness :
    findTargetNode docAB ("#/" ++ "a" ++ "/" ++ "b") = some (.numN 12 1) ∧
    (findTargetNodeSt [["x"]] docAB ("#/" ++ "a" ++ "/" ++ "b")).1 = some (.numN 12 1) ∧
    (findTargetNodeSt (findTargetNodeSt [["x"]] docAB ("#/" ++ "a" ++ "/" ++ "b")).2
        docAB ("#/" ++ "a" ++ "/" ++ "b")).1 = some (.numN 12 1) := by
  obtain ⟨h1, h2⟩ :=
    findTargetNode_two_level_idempotent docAB "a" "b" 0 16 6 9
      [.mk 1 14 ⟨1, 3, "a"⟩ (some (.objectN 6 9 [.mk 7 7 ⟨7, 3, "b"⟩ (some (.numN 12 1))]))]
      [.mk 7 7 ⟨7, 3, "b"⟩ (some (.numN 12 1))]
      (.mk 1 14 ⟨1, 3, "a"⟩ (some (.objectN 6 9 [.mk 7 7 ⟨7, 3, "b"⟩ (some (.numN 12 1))])))
      (.mk 7 7 ⟨7, 3, "b"⟩ (some (.numN 12 1)))
      (.numN 12 1)
      (by decide) (by decide) (by decide) (by decide) rfl rfl rfl rfl rfl
  exact ⟨h1, (h2 [["x"]]).1, (h2 [["x"]]).2⟩

/-- Claim C10: resolution's only mutation is confined to the token array
freshly allocated for that single call — in the explicit-state model, the
resolver's value equals the pure resolver's, and every pre-existing slot of
the store reads unchanged afterwards, so no caller-visible structure is
affected. -/
theorem findTargetNodeSt_frame (store : TokenStore) (doc : JSONDocument) (path : String) :
    (findTargetNodeSt store doc path).1 = findTargetNode doc path ∧
    (∀ j, j < TokenStore.size store →
      TokenStore.read (findTargetNodeSt store doc path).2 j = TokenStore.read store j) := by
  refine ⟨findTargetNodeSt_fst store doc path, ?_⟩
  intro j hj
  rw [findTargetNodeSt]
  cases hp : parseJSONPointer path with
  | none => rfl
  | some tokens =>
    dsimp only
    simp only [TokenStore.size] at hj ⊢
    rw [set_append_length]
    show List.get? _ j = List.get? store j
    rw [List.get?_eq_getElem?, List.get?_eq_getElem?, List.getElem?_append, if_pos hj]

/-- Claim C10 witness: resolving `#/a/b` against a store holding two
pre-existing token arrays leaves both readable unchanged and returns the
pure resolver's value. -/
theorem findTargetNodeSt_frame_witness :
    (findTargetNodeSt [["x"], ["y", "z"]] docAB "#/a/b").1 = findTargetNode docAB "#/a/b" ∧
    TokenStore.read (findTargetNodeSt [["x"], ["y", "z"]] docAB "#/a/b").2 0
      = TokenStore.read [["x"], ["y", "z"]] 0 ∧
    TokenStore.read (findTargetNodeSt [["x"], ["y", "z"]] docAB "#/a/b").2 1
      = TokenStore.read [["x"], ["y", "z"]] 1 :=
  ⟨(findTargetNodeSt_frame [["x"], ["y", "z"]] docAB "#/a/b").1,
   (findTargetNodeSt_frame [["x"], ["y", "z"]] docAB "#/a/b").2 0 (by decide),
   (findTargetNodeSt_frame [["x"], ["y", "z"]] docAB "#/a/b").2 1 (by decide)⟩

/-- Claim C2: the local link finder emits exactly one link per visited
property whose key is `$ref` and whose string value resolves against the
same tree; each link's range runs from the value node's `offset + 1` to
`offset + length - 1` and its target is the document URI with the resolved
node's one-based line and column; an unresolvable `$ref` emits nothing. -/
theorem findLinks_per_ref_property (document : TextDocument) (doc : JSONDocument) :
    findLinks document doc = (documentNodes doc).filterMap (refLinkAt document doc) ∧
    (∀ (p : PropertyNode) (off len : Nat) (value : String),
      p.keyNode.value = "$ref" → p.valueNode = some (.strN off len value) →
      (∀ targetNode, findTargetNode doc value = some targetNode →
        refLinkAt document doc (.propN p) =
          some { target := some (document.uri ++ "#" ++
                   toString ((document.positionAt targetNode.offset).line + 1) ++ "," ++
                   toString ((document.positionAt targetNode.offset).character + 1))
                 range := { start := document.positionAt (off + 1)
                            stop := document.positionAt (off + len - 1) } }) ∧
      (findTargetNode doc value = none → refLinkAt document doc (.propN p) = none)) ∧
    (∀ (node : ASTNode) (link : DocumentLink),
      refLinkAt document doc node = some link →
      ∃ (p : PropertyNode) (off len : Nat) (value : String) (targetNode : ASTNode),
        node = .propN p ∧ p.keyNode.value = "$ref" ∧
        p.valueNode = some (.strN off len value) ∧
        findTargetNode doc value = some targetNode) := by
  refine ⟨findLinks_eq document doc, ?_, ?_⟩
  · intro p off len value hk hv
    constructor
    · intro targetNode ht
      simp only [refLinkAt, if_pos hk, hv, ht]
      rfl
    · intro ht
      simp only [refLinkAt, if_pos hk, hv, ht]
  · intro node link h
    cases node with
    | propN p =>
      by_cases hk : p.keyNode.value = "$ref"
      · rcases hval : p.valueNode with _ | vn
        · simp [refLinkAt, if_pos hk, hval] at h
        · cases vn with
          | strN off len value =>
            simp only [refLinkAt, if_pos hk, hval] at h
            cases ht : findTargetNode doc value with
            | none => rw [ht] at h; simp at h
            | some tn => exact ⟨p, off, len, value, tn, rfl, hk, hval, ht⟩
          | numN o l => simp [refLinkAt, if_pos hk, hval] at h
          | boolN o l v => simp [refLinkAt, if_pos hk, hval] at h
          | nullN o l => simp [refLinkAt, if_pos hk, hval] at h
          | objectN o l ps => simp [refLinkAt, if_pos hk, hval] at h
          | arrayN o l its => simp [refLinkAt, if_pos hk, hval] at h
          | propN q => simp [refLinkAt, if_pos hk, hval] at h
      · simp [refLinkAt, if_neg hk] at h
    | strN o l v => simp [refLinkAt] at h
    | numN o l => simp [refLinkAt] at h
    | boolN o l v => simp [refLinkAt] at h
    | nullN o l => simp [refLinkAt] at h
    | objectN o l ps => simp [refLinkAt] at h
    | arrayN o l its => simp [refLinkAt] at h

/-- Claim C2 witness: in the document binding `x` to an object with a
`$ref` to `#/y` and `y` to `42`, the visitor body emits the one link with
the value's interior range and the one-based position of the `42` node; the
`$ref` to `#/missing` emits nothing. -/
theorem findLinks_per_ref_property_witness :
    refLinkAt tdA docXY (.propN (.mk 7 14 ⟨7, 6, "$ref"⟩ (some (.strN 15 6 "#/y"))))
      = some { target := some "file:///a.json#1,29"
               range := { start := ⟨0, 16⟩, stop := ⟨0, 20⟩ } } ∧
    refLinkAt tdA docMissing (.propN (.mk 1 20 ⟨1, 6, "$ref"⟩ (some (.strN 9 12 "#/missing"))))
      = none :=
  ⟨((findLinks_per_ref_property tdA docXY).2.1
      (.mk 7 14 ⟨7, 6, "$ref"⟩ (some (.strN 15 6 "#/y"))) 15 6 "#/y" rfl rfl).1
      (.numN 28 2) rfl,
   ((findLinks_per_ref_property tdA docMissing).2.1
      (.mk 1 20 ⟨1, 6, "$ref"⟩ (some (.strN 9 12 "#/missing"))) 9 12 "#/missing" rfl rfl).2 rfl⟩

/-- Claim C8: in pre-supplied documents mode the output is exactly the
local links, in document visit order, followed by the external-reference
links in the order the caller supplied them. -/
theorem findLinks2_ordering (document : TextDocument) (doc : JSONDocument)
    (refs : List JsonExternalReference) :
    findLinks2 document doc refs
      = findLinks document doc ++ refs.filterMap (externalLink document) ∧
    findLinks document doc = (documentNodes doc).filterMap (refLinkAt document doc) :=
  ⟨findLinks2_eq document doc refs, findLinks_eq document doc⟩

/-- Claim C1 counterexample: an external reference whose `$ref` value
`other.json` contains no `#`, pointing at an external document whose root
exists (so the pointer `#` would resolve to it), yields no link at all —
the code builds the fragment `#undefined` instead of `#`. -/
theorem findLinks2_noHash_counterexample :
    refNoHash.jsonDocument.root = some (.objectN 0 2 []) ∧
    findTargetNode refNoHash.jsonDocument "#" = some (.objectN 0 2 []) ∧
    findLinks2 tdA docNoHash [refNoHash] = [] :=
  ⟨rfl, rfl, rfl⟩

/-- Claim C1 (amended): for an external entry whose source is a `$ref`
property with a string value, the fragment used for resolution is `#`
followed by the piece of the value between its first and second `#`; when
the value contains no `#` that piece is JavaScript `undefined`, rendered as
the literal text `undefined`, so the fragment never parses and no link is
emitted; when the fragment resolves against the external document's tree, a
link is emitted whose range lies in the current document (the originating
value node) and whose target encodes the external document's URI and
resolved position; the external entries come after the local links. -/
theorem findLinks2_external_fragment (document : TextDocument) (ref : JsonExternalReference)
    (p : PropertyNode) (off len : Nat) (value : String)
    (hs : ref.sourceNode = .propN p) (hk : p.keyNode.value = "$ref")
    (hv : p.valueNode = some (.strN off len value)) :
    (∀ targetNode, findTargetNode ref.jsonDocument (fragmentPath value) = some targetNode →
      externalLink document ref =
        some { target := some (ref.textDocument.uri ++ "#" ++
                 toString ((ref.textDocument.positionAt targetNode.offset).line + 1) ++ "," ++
                 toString ((ref.textDocument.positionAt targetNode.offset).character + 1))
               range := createRange document (.strN off len value) }) ∧
    (findTargetNode ref.jsonDocument (fragmentPath value) = none →
      externalLink document ref = none) ∧
    ('#' ∉ value.data → externalLink document ref = none) ∧
    (∀ (doc : JSONDocument) (refs : List JsonExternalReference),
      findLinks2 document doc refs
        = findLinks document doc ++ refs.filterMap (externalLink document)) := by
  have hnone : findTargetNode ref.jsonDocument (fragmentPath value) = none →
      externalLink document ref = none := by
    intro ht
    simp only [externalLink, hs, hk, hv, ht]
    simp
  refine ⟨?_, hnone, ?_, fun doc refs => findLinks2_eq document doc refs⟩
  · intro tn ht
    simp only [externalLink, hs, hk, hv, ht]
    simp
  · intro hnm
    have hfrag : fragmentPath value = "#undefined" := by
      rw [fragmentPath, splitOnChar_of_not_mem hnm]
      rfl
    refine hnone ?_
    rw [hfrag]
    rfl

/-- Claim C1 witness: an external entry with the value `other.json#/z`
against an external document binding `z` produces the cross-document link,
with the range in the current document and the target in the external one. -/
theorem findLinks2_external_fragment_witness :
    externalLink tdA refWithHash =
      some { target := some "file:///b.json#1,7"
             range := createRange tdA (.strN 9 15 "other.json#/z") } :=
  (findLinks2_external_fragment tdA refWithHash propWithHash 9 15 "other.json#/z"
    rfl rfl rfl).1 (.numN 6 1) rfl

/-- Claim C3 counterexample: a `$ref` value with the non-empty file part
`other.json` under a context that resolves nothing still produces a record
(with an absent URI) — the extractor never checks the resolution result, so
the record is not omitted. -/
theorem findExternalReferences_unresolved_counterexample :
    ctxNone.resolveReference (filePart "other.json#/z") tdA.uri = none ∧
    findExternalReferences tdA docWithHash ctxNone
      = [{ sourceNode := .propN propWithHash, uri := none }] :=
  ⟨rfl, rfl⟩

/-- Claim C3 (amended): the extractor emits a record exactly for those
visited `$ref` properties whose value is a string with a non-empty file
part, pairing the node with whatever URI the context returns — possibly an
absent one; with an empty file part the property is never emitted,
regardless of fragment content. -/
theorem findExternalReferences_spec (document : TextDocument) (doc : JSONDocument)
    (documentContext : DocumentContext) :
    findExternalReferences document doc documentContext
      = (documentNodes doc).filterMap (externalRefAt document documentContext) ∧
    (∀ (p : PropertyNode) (off len : Nat) (value : String),
      p.keyNode.value = "$ref" → p.valueNode = some (.strN off len value) →
      (filePart value = "" → externalRefAt document documentContext (.propN p) = none) ∧
      (filePart value ≠ "" →
        externalRefAt document documentContext (.propN p)
          = some { sourceNode := .propN p
                   uri := documentContext.resolveReference (filePart value) document.uri })) ∧
    (∀ (node : ASTNode) (entry : JsonNodeUri),
      externalRefAt document documentContext node = some entry →
      ∃ (p : PropertyNode) (off len : Nat) (value : String),
        node = .propN p ∧ p.keyNode.value = "$ref" ∧
        p.valueNode = some (.strN off len value) ∧ filePart value ≠ "" ∧
        entry = { sourceNode := .propN p
                  uri := documentContext.resolveReference (filePart value) document.uri }) := by
  refine ⟨findExternalReferences_eq document doc documentContext, ?_, ?_⟩
  · intro p off len value hk hv
    constructor
    · intro hf
      simp only [externalRefAt, hk, hv, hf]
      simp
    · intro hf
      simp only [externalRefAt, hk, hv, if_neg hf]
      simp [hf]
  · intro node entry h
    cases node with
    | propN p =>
      by_cases hk : p.keyNode.value = "$ref"
      · rcases hval : p.valueNode with _ | vn
        · simp [externalRefAt, hk, hval] at h
        · cases vn with
          | strN off len value =>
            by_cases hf : filePart value = ""
            · simp [externalRefAt, hk, hval, hf] at h
            · simp only [externalRefAt, hk, hval, if_neg hf] at h
              simp at h
              exact ⟨p, off, len, value, rfl, hk, hval, hf, h.symm⟩
          | numN o l => simp [externalRefAt, hk, hval] at h
          | boolN o l v => simp [externalRefAt, hk, hval] at h
          | nullN o l => simp [externalRefAt, hk, hval] at h
          | objectN o l ps => simp [externalRefAt, hk, hval] at h
          | arrayN o l its => simp [externalRefAt, hk, hval] at h
          | propN q => simp [externalRefAt, hk, hval] at h
      · simp [externalRefAt, hk] at h
    | strN o l v => simp [externalRefAt] at h
    | numN o l => simp [externalRefAt] at h
    | boolN o l v => simp [externalRefAt] at h
    | nullN o l => simp [externalRefAt] at h
    | objectN o l ps => simp [externalRefAt] at h
    | arrayN o l its => simp [externalRefAt] at h

/-- Claim C3 (amended) witness: with the directory-prefixing context the
record carries the resolved URI; the record is emitted in the output list. -/
theorem findExternalReferences_spec_witness :
    externalRefAt tdA ctxDir (.propN propWithHash)
      = some { sourceNode := .propN propWithHash
               uri := some "file:///dir/other.json" } ∧
    findExternalReferences tdA docWithHash ctxDir
      = (documentNodes docWithHash).filterMap (externalRefAt tdA ctxDir) :=
  ⟨((findExternalReferences_spec tdA docWithHash ctxDir).2.1 propWithHash 9 15
      "other.json#/z" rfl rfl).2 (by decide),
   (findExternalReferences_spec tdA docWithHash ctxDir).1⟩

/-- Claim C9: in on-demand resolution mode, a `$ref` string value with a
non-empty file part yields a link — with the value's interior range and an
absent target — exactly when the fetch of its resolved URI reports no
errors; a fetch with errors yields nothing for that property, and the
outcome for a property depends only on the fetch result for its own
resolved URI, so independent references cannot affect each other. -/
theorem onDemand_fetch_gate (document : TextDocument) (doc : JSONDocument)
    (documentContext : DocumentContext) (service : ExternalResourceService)
    (p : PropertyNode) (off len : Nat) (value : String)
    (hk : p.keyNode.value = "$ref") (hv : p.valueNode = some (.strN off len value))
    (hf : filePart value ≠ "") :
    ((onDemandLinkAt document doc documentContext service (.propN p)
        = some { target := none, range := createRange document (.strN off len value) })
      ↔ service.fetch (resolvedUriOf document documentContext value) = []) ∧
    (service.fetch (resolvedUriOf document documentContext value) ≠ [] →
      onDemandLinkAt document doc documentContext service (.propN p) = none) ∧
    (∀ service' : ExternalResourceService,
      service'.fetch (resolvedUriOf document documentContext value)
        = service.fetch (resolvedUriOf document documentContext value) →
      onDemandLinkAt document doc documentContext service' (.propN p)
        = onDemandLinkAt document doc documentContext service (.propN p)) ∧
    findLinksOnDemand document doc documentContext service
      = (documentNodes doc).filterMap (onDemandLinkAt document doc documentContext service) := by
  have hred : ∀ s : ExternalResourceService,
      onDemandLinkAt document doc documentContext s (.propN p)
        = if s.fetch (resolvedUriOf document documentContext value) = [] then
            some { target := none, range := createRange document (.strN off len value) }
          else none := by
    intro s
    simp only [onDemandLinkAt, hk, hv, if_neg hf]
    simp
  refine ⟨?_, ?_, ?_, rfl⟩
  · rw [hred service]
    by_cases hsf : service.fetch (resolvedUriOf document documentContext value) = []
    · rw [if_pos hsf]
      exact ⟨fun _ => hsf, fun _ => rfl⟩
    · rw [if_neg hsf]
      exact ⟨fun h => absurd h (by simp), fun h => absurd h hsf⟩
  · intro hne
    rw [hred service, if_neg hne]
  · intro service' hagree
    rw [hred service', hred service, hagree]

/-- Claim C9 witness: with the failing service the `$ref` to `other.json`
yields nothing; with the always-succeeding service the same property yields
its recognition link. -/
theorem onDemand_fetch_gate_witness :
    onDemandLinkAt tdA docWithHash ctxDir svcFailOther (.propN propWithHash) = none ∧
    onDemandLinkAt tdA docWithHash ctxDir svcOk (.propN propWithHash)
      = some { target := none, range := createRange tdA (.strN 9 15 "other.json#/z") } :=
  ⟨(onDemand_fetch_gate tdA docWithHash ctxDir svcFailOther propWithHash 9 15
      "other.json#/z" rfl rfl (by decide)).2.1 (by decide),
   (onDemand_fetch_gate tdA docWithHash ctxDir svcOk propWithHash 9 15
      "other.json#/z" rfl rfl (by decide)).1.mpr rfl⟩

end JsonLinks
